import Mathlib

/-!
# Verification of the RangeFilteredANN C++ wrapper

A shallow embedding, in Lean 4, of the core of `apps/range_filter_cpp_wrapper.h`
and `apps/fanns_survey_helpers.cpp`:

* the bucket-layout construction loop of the `RangeFilterCppWrapper` constructor
  (lines 70-106 of the header),
* the filter-sorting step of the constructor (lines 34-57),
* `check_empty`, `first_greater_than_or_equal_to`, the interval translation of
  `optimized_postfiltering_search`, and `optimized_postfilter_search_in_range`
  (lines 110-219),
* `read_two_floats_per_line` of `fanns_survey_helpers.cpp` (lines 33-60).

Modelling conventions:

* `size_t` values are `ℕ`; where C++ wrap-around genuinely occurs (the
  `small_bucket_size` underflow for zero-sized parent buckets) a faithful
  mod-2^64 version is given as well and proved to produce the same offsets.
* `float` filter values and distances are modelled as `ℚ` (the claims under
  study assume no NaN, and only use ordering and equality).
* the external `parlay::sort_inplace` (library code, not part of this
  repository) is modelled as a comparison sort by the given comparator,
  using `List.insertionSort`.
* the external graph index `beam_search` (declared in `prefiltering.h` /
  `postfilter_vamana.h`, not part of the sources under study) is an abstract
  parameter `beam : ℕ → ℕ → List (ℕ × ℚ)` mapping (level, bucket) to a list
  of (local id, distance) pairs, per the §4.2 contract of the specification.
-/

/-- The `size_t` modulus. -/
def M64 : ℕ := 2 ^ 64

/-- The C++ comparison `size_t > int32_t` converts the `int32_t` to `size_t`
(two's complement reinterpretation).  `usize c` is the unsigned value the
signed `cutoff` is converted to. -/
def usize (c : ℤ) : ℕ := (c % (2 : ℤ) ^ 64).toNat

/-- Embeds `large_bucket_size = (last_size + _split_factor - 1) / _split_factor`
(line 85 of the header): the ceiling of `S / f`. -/
def largeOf (S f : ℕ) : ℕ := (S + f - 1) / f

/-- Embeds `num_larger_buckets = last_size - small_bucket_size * _split_factor`
(line 87): how many children of a parent of size `S` get the large size. -/
def numLarger (S f : ℕ) : ℕ := S - (largeOf S f - 1) * f

/-- Size of the `i`-th child of a parent bucket of size `S` split `f` ways:
the first `numLarger S f` children have size `largeOf S f`, the rest
`largeOf S f - 1` (lines 85-104 of the header). -/
def childSize (S f i : ℕ) : ℕ :=
  if i < numLarger S f then largeOf S f else largeOf S f - 1

/-- Start offset of the `i`-th child of a parent bucket `[ls, ls + S)` split
`f` ways, exactly as computed on lines 89-104 of the header:
`start = last_start + i * large` for the first `numLarger` children and
`start = last_start + num_larger * large + (i - num_larger) * small` for the
rest.  (For `S = 0` the C++ `small_bucket_size` underflows in `size_t`;
`childStart64` below models that faithfully and is proved to produce the same
offsets as this definition.) -/
def childStart (ls S f i : ℕ) : ℕ :=
  if i < numLarger S f then ls + i * largeOf S f
  else ls + numLarger S f * largeOf S f + (i - numLarger S f) * (largeOf S f - 1)

/-- Faithful mod-2^64 version of the child-offset computation of lines 81-104:
every `size_t` addition, subtraction and multiplication is taken mod `2^64`.
`ls`/`le` are the parent's start and end offsets. -/
def childStart64 (ls le f i : ℕ) : ℕ :=
  let S := (le % M64 + (M64 - ls % M64)) % M64
  let large := ((S + f) % M64 + (M64 - 1 % M64)) % M64 / f
  let small := (large % M64 + (M64 - 1 % M64)) % M64
  let r := (S % M64 + (M64 - small * f % M64)) % M64
  if i < r then (ls + i * large % M64) % M64
  else ((ls + r * large % M64) % M64 + (i - r) * small % M64) % M64

/-- One iteration of the construction loop (lines 74-106): the deepest level
`off` is split into a new level with `(off.length - 1) * f` buckets, whose
offset vector has the child starts at positions `b * f + i` and
`_filter_values.size() = N` as its final entry (line 77). -/
def splitLevel (off : List ℕ) (f N : ℕ) : List ℕ :=
  (List.range ((off.length - 1) * f)).map
    (fun j => childStart (off[j / f]!) (off[j / f + 1]! - off[j / f]!) f (j % f))
    ++ [N]

/-- The `while (_bucket_offsets.back().at(1) > cutoff)` loop of lines 74-106,
with explicit fuel (`none` = the given fuel did not reach termination).
`cU` is the unsigned value the `int32_t` cutoff converts to. -/
def buildLoop (N cU f : ℕ) : ℕ → List (List ℕ) → Option (List (List ℕ))
  | 0, levels => if cU < levels.getLast![1]! then none else some levels
  | fuel + 1, levels =>
      if cU < levels.getLast![1]! then
        buildLoop N cU f fuel (levels ++ [splitLevel levels.getLast! f N])
      else some levels

/-- The bucket offsets built by the constructor: start from the single level
`{0, N}` pushed on line 72, then run the splitting loop. -/
def buildOffsets (N : ℕ) (cutoff : ℤ) (f fuel : ℕ) : Option (List (List ℕ)) :=
  buildLoop N (usize cutoff) f fuel [[0, N]]

/-- The construction loop terminates for the given parameters. -/
def loopTerminates (N : ℕ) (cutoff : ℤ) (f : ℕ) : Prop :=
  ∃ fuel L, buildOffsets N cutoff f fuel = some L

/-! ## Query side: `check_empty`, binary search, interval translation -/

/-- Embeds `check_empty` (lines 148-150 of the header):
`range.second < _filter_values.front() || range.first > _filter_values.back()`. -/
def check_empty (fil : List ℚ) (lo hi : ℚ) : Bool :=
  decide (hi < fil.head!) || decide (lo > fil.getLast!)

/-- The `while (start + 1 < end)` loop of `first_greater_than_or_equal_to`
(lines 156-166 of the header). -/
def bsLoop (fil : List ℚ) (v : ℚ) (s e : ℕ) : ℕ :=
  if s + 1 < e then
    let mid := (s + e) / 2
    if v ≤ fil[mid]! then bsLoop fil v s mid else bsLoop fil v mid e
  else e
termination_by e - s
decreasing_by
  · omega
  · omega

/-- Embeds `first_greater_than_or_equal_to` (lines 152-167 of the header): the early
return when `filter_values[0] >= filter_value`, otherwise the binary-search
loop on `[0, filter_values.size())`. -/
def first_ge (v : ℚ) (fil : List ℚ) : ℕ :=
  if v ≤ fil[0]! then 0 else bsLoop fil v 0 fil.length

/-- Interval-to-index translation of `optimized_postfiltering_search`
(lines 116-121 of the header): `start`/`end` by lower-bound search, then a
single `end++` when `end < _filter_values.size() && _filter_values[end] ==
range.second`. -/
def rangeTranslate (fil : List ℚ) (lo hi : ℚ) : ℕ × ℕ :=
  let s := first_ge lo fil
  let e := first_ge hi fil
  (s, if e < fil.length ∧ fil[e]! = hi then e + 1 else e)

/-! ## Query side: bucket-span selection and the search pipeline -/

/-- One iteration of the inner bucket scan of
`optimized_postfilter_search_in_range` (lines 179-187 of the header).  The
state is `(s_bucket, e_bucket, broke)`; once the `break` of line 185 has been
taken the remaining iterations do nothing. -/
def fbStep (off : List ℕ) (s e : ℕ) (st : ℕ × ℕ × Bool) (b : ℕ) : ℕ × ℕ × Bool :=
  if st.2.2 then st
  else
    let sb := if off[b]! ≤ s ∧ s < off[b + 1]! then b else st.1
    if off[b]! < e ∧ e ≤ off[b + 1]! then (sb, b + 1, true) else (sb, st.2.1, false)

/-- The inner loop of lines 176-187: scan the buckets of one level, returning
`(s_bucket, e_bucket)` with the initial values `s_bucket = 0`,
`e_bucket = num_buckets`. -/
def findBuckets (off : List ℕ) (s e : ℕ) : ℕ × ℕ :=
  let num := off.length - 1
  let st := (List.range num).foldl (fbStep off s e) (0, num, false)
  (st.1, st.2.1)

/-- One iteration of the level loop of lines 175-196.  The state is
`((level, start_bucket, end_bucket), broke)`; the `break` of line 194 fires
as soon as `end_bucket - start_bucket == 1`. -/
def ssStep (offs : List (List ℕ)) (s e : ℕ) (st : (ℕ × ℕ × ℕ) × Bool) (l : ℕ) :
    (ℕ × ℕ × ℕ) × Bool :=
  if st.2 then st
  else
    let p := findBuckets offs[l]! s e
    ((l, p.1, p.2), decide (p.2 - p.1 = 1))

/-- The level/bucket selection of `optimized_postfilter_search_in_range`
(lines 170-196 of the header), with the initial values `level = 0`,
`start_bucket = 0`, `end_bucket = 1` of lines 171-173. -/
def selectSpan (offs : List (List ℕ)) (s e : ℕ) : ℕ × ℕ × ℕ :=
  ((List.range offs.length).foldl (ssStep offs s e) ((0, 0, 1), false)).1

/-- Comparator used for the merge sort of line 207:
`[](const pid &a, const pid &b) { return a.second < b.second; }`.  The parlay
unstable sort is modelled as a stable sort by the non-strict comparator; the
claims under study only use executions with pairwise distinct distances. -/
def distLE (a b : ℕ × ℚ) : Prop := a.2 ≤ b.2

instance : DecidableRel distLE := fun a b => inferInstanceAs (Decidable (a.2 ≤ b.2))

/-- Embeds `optimized_postfilter_search_in_range`, lines 169-219 of the header:
select the level and bucket span, run `beam_search` on each selected bucket,
flatten, sort by distance, take the first `min k merged.size` pairs, and remap
`p.first` through `_sorted_index_to_original_point_id` (no other rewriting of
`p.first` takes place).  `beam level bucket` abstracts
`_spatial_indices[level][bucket]->beam_search(query, query_params)`. -/
def searchInRange (offs : List (List ℕ)) (dec : List ℕ)
    (beam : ℕ → ℕ → List (ℕ × ℚ)) (s e k : ℕ) : List (ℕ × ℚ) :=
  let sp := selectSpan offs s e
  let results := (List.range (sp.2.2 - sp.2.1)).map (fun i => beam sp.1 (sp.2.1 + i))
  let merged := List.insertionSort distLE results.flatten
  let final := merged.take (min k merged.length)
  final.map (fun p => (dec[p.1]!, p.2))

/-- Embeds `optimized_postfiltering_search` (lines 110-124 of the header): the
`check_empty` early return, the interval translation, and the in-range
search. -/
def optSearch (fil : List ℚ) (offs : List (List ℕ)) (dec : List ℕ)
    (beam : ℕ → ℕ → List (ℕ × ℚ)) (lo hi : ℚ) (k : ℕ) : List (ℕ × ℚ) :=
  if check_empty fil lo hi then []
  else searchInRange offs dec beam (rangeTranslate fil lo hi).1 (rangeTranslate fil lo hi).2 k

/-! ## Constructor: sorting by filter value (lines 34-57 of the header) -/

/-- The comparator of line 38-40:
`filter_values_seq[i] < filter_values_seq[j]`, as the non-strict relation
used by the stable model sort. -/
def filLE (fil : ℕ → ℚ) (i j : ℕ) : Prop := fil i ≤ fil j

instance (fil : ℕ → ℚ) : DecidableRel (filLE fil) :=
  fun i j => inferInstanceAs (Decidable (fil i ≤ fil j))

instance (fil : ℕ → ℚ) : IsTotal ℕ (filLE fil) :=
  ⟨fun i j => le_total (fil i) (fil j)⟩

instance (fil : ℕ → ℚ) : IsTrans ℕ (filLE fil) :=
  ⟨fun _ _ _ h1 h2 => le_trans h1 h2⟩

/-- Embeds `filter_indices_sorted` (lines 37-40): the identity sequence `[0, n)`
sorted by filter value.  Modelled from the spec: `parlay::sort_inplace` is
external library code; §4.4 step 1 asks for a permutation of `[0, n)` that
sorts the filters non-decreasingly (stable order irrelevant), modelled as a
stable insertion sort by the comparator. -/
def sortIndices (n : ℕ) (fil : ℕ → ℚ) : List ℕ :=
  List.insertionSort (filLE fil) (List.range n)

/-- Embeds `decoding` (lines 44-48): `decoding[sorted_id] = filter_indices_sorted[sorted_id]`,
stored as `_sorted_index_to_original_point_id`. -/
def decoding (n : ℕ) (fil : ℕ → ℚ) : List ℕ := sortIndices n fil

/-- Embeds `sorted_filter_values` (lines 54-57):
`sorted_filter_values[sorted_id] = filter_values_seq[filter_indices_sorted[sorted_id]]`. -/
def sortedFilters (n : ℕ) (fil : ℕ → ℚ) : List ℚ := (sortIndices n fil).map fil

/-- Embeds `data_sorted` (lines 43-52): the flat row-major buffer with
`data_sorted[sorted_id * d + dim] = data[original_id * d + dim]` where
`original_id = filter_indices_sorted[sorted_id]`. -/
def dataSorted (n d : ℕ) (data : ℕ → ℚ) (fil : ℕ → ℚ) : List ℚ :=
  (List.range (n * d)).map (fun idx => data ((sortIndices n fil)[idx / d]! * d + idx % d))

/-! ## A concrete `beam_search` collaborator -/

/-- Modelled from the spec: §4.2 gives the external GraphIndex contract only —
`beam_search(q, qp)` returns up to `beamSize` `(local_id, dist)` pairs sorted
by ascending distance, `local_id` addressing the subset view `[off[l][b],
off[l][b+1])` the index was built over (`create_index`, lines 135-146, builds
the bucket `(l, b)` over exactly that slice).  `bruteBeam` is one concrete
collaborator satisfying that contract: exact search over the bucket, for
one-dimensional points `pts` (indexed by sorted id, with integer coordinates)
and squared Euclidean distance. -/
def bruteBeam (pts : ℕ → ℤ) (offs : List (List ℕ)) (q : ℤ) (beamSize : ℕ)
    (l b : ℕ) : List (ℕ × ℚ) :=
  let s := (offs[l]!)[b]!
  let e := (offs[l]!)[b + 1]!
  let cands := (List.range (e - s)).map
    (fun i => (i, (((pts (s + i) - q) * (pts (s + i) - q) : ℤ) : ℚ)))
  (List.insertionSort distLE cands).take beamSize

/-! ## Query side instrumented with bounds checks (for the safety claim) -/

/-- Embeds `check_empty` with the two unguarded accesses
`_filter_values.front()` and `_filter_values.back()` made explicit:
`none` means an out-of-bounds access. -/
def check_empty_opt (fil : List ℚ) (lo hi : ℚ) : Option Bool :=
  match fil.head?, fil.getLast? with
  | some a, some b => some (decide (hi < a) || decide (lo > b))
  | _, _ => none

/-- Embeds `first_greater_than_or_equal_to` with the unguarded initial access
`filter_values[0]` made explicit (the loop accesses `filter_values[mid]`
only with `0 ≤ start < mid < end ≤ size`, which is in bounds). -/
def first_ge_opt (v : ℚ) (fil : List ℚ) : Option ℕ :=
  match fil[0]? with
  | some a => some (if v ≤ a then 0 else bsLoop fil v 0 fil.length)
  | none => none

/-- Embeds `optimized_postfiltering_search` with the unguarded filter accesses made
explicit (the `_filter_values[end]` access of line 119 is guarded by
`end < _filter_values.size()` in the source and stays guarded here). -/
def optSearch_opt (fil : List ℚ) (offs : List (List ℕ)) (dec : List ℕ)
    (beam : ℕ → ℕ → List (ℕ × ℚ)) (lo hi : ℚ) (k : ℕ) : Option (List (ℕ × ℚ)) := do
  let empty ← check_empty_opt fil lo hi
  if empty then return []
  else
    let s ← first_ge_opt lo fil
    let e ← first_ge_opt hi fil
    let e2 := if e < fil.length ∧ fil[e]! = hi then e + 1 else e
    return searchInRange offs dec beam s e2 k

/-! ## `read_two_floats_per_line` (fanns_survey_helpers.cpp, lines 33-60) -/

/-- Errors thrown by `read_two_floats_per_line`.  The C++ throws
`std::runtime_error` with messages "Invalid format on line k: expected
min-max" (no dash separator) and "Invalid number on line k" (a part
`std::stof` rejects); both name the 1-based line number `k`, which is what
the error carries here. -/
inductive ParseErr : Type
  | badFormat : ℕ → ParseErr
  | badNumber : ℕ → ParseErr
deriving DecidableEq, Repr

/-- Embeds `line.find('-')` followed by `substr(0, dash_pos)` / `substr(dash_pos + 1)`
(lines 43-49 of the helpers): split a line at its first dash, `none` when no
dash occurs. -/
def firstDashSplit : List Char → Option (List Char × List Char)
  | [] => none
  | c :: rest =>
      if c = '-' then some ([], rest)
      else (firstDashSplit rest).map (fun p => (c :: p.1, p.2))

/-- Parse one line: split at the first dash and run `stof` on both parts.
`stof` abstracts `std::stof` (a C++ standard-library function that may
reject its input). -/
def lineParse {α : Type} (stof : List Char → Option α) (line : List Char) :
    Option (α × α) :=
  match firstDashSplit line with
  | none => none
  | some (a, b) =>
      match stof a, stof b with
      | some x, some y => some (x, y)
      | _, _ => none

/-- The error `read_two_floats_per_line` raises for a malformed line read as
the `k`-th (1-based) line of the file: no dash separator gives the
"Invalid format" error, a part `stof` rejects gives the "Invalid number"
error. -/
def lineErr (k : ℕ) (line : List Char) : ParseErr :=
  match firstDashSplit line with
  | none => ParseErr.badFormat k
  | some _ => ParseErr.badNumber k

/-- The `while (std::getline(...))` loop of lines 41-58 of the helpers, with
`k` lines already consumed: each line is split at its first dash and parsed
(`lineParse`); the first malformed line aborts the whole read with the error
of `lineErr`, naming its 1-based line number. -/
def readTwoLoop {α : Type} (stof : List Char → Option α) :
    ℕ → List (List Char) → Except ParseErr (List (α × α))
  | _, [] => Except.ok []
  | k, line :: rest =>
      match lineParse stof line with
      | none => Except.error (lineErr (k + 1) line)
      | some xy =>
          match readTwoLoop stof (k + 1) rest with
          | Except.ok l => Except.ok (xy :: l)
          | Except.error err => Except.error err

/-- Embeds `read_two_floats_per_line` on the list of lines of the file
(`line_number` starts at 0 and is incremented before each line is handled). -/
def read_two_floats_per_line {α : Type} (stof : List Char → Option α)
    (lines : List (List Char)) : Except ParseErr (List (α × α)) :=
  readTwoLoop stof 0 lines

/-! ## Structural invariants of the bucket layout -/

/-- Invariant of a single level of `_bucket_offsets`: at least two offsets,
first offset `0`, last offset `N`, non-decreasing, and no bucket larger than
the first one. -/
def levelOK (N : ℕ) (off : List ℕ) : Prop :=
  2 ≤ off.length ∧ off[0]! = 0 ∧ off[off.length - 1]! = N ∧
  (∀ b, b + 1 < off.length → off[b]! ≤ off[b + 1]!) ∧
  (∀ b, b + 1 < off.length → off[b + 1]! - off[b]! ≤ off[1]! - off[0]!)

/-! ## Lemmas: the binary search `first_greater_than_or_equal_to` -/

/-- Bang-indexed form of sortedness. -/
lemma sorted_getElemBang {fil : List ℚ} (hs : fil.Sorted (· ≤ ·)) {i j : ℕ}
    (hij : i ≤ j) (hj : j < fil.length) : fil[i]! ≤ fil[j]! := by
  rcases Nat.lt_or_ge i j with h | h
  · rw [getElem!_pos fil i (Nat.lt_of_lt_of_le h (Nat.le_of_lt hj)), getElem!_pos fil j hj]
    exact List.pairwise_iff_getElem.mp hs i j _ _ h
  · have : i = j := Nat.le_antisymm hij h
    subst this
    exact le_refl _
/-- A first-index characterisation of `List.findIdx`. -/
lemma findIdx_eq_of {α : Type} [Inhabited α] (p : α → Bool) (l : List α) (R : ℕ)
    (hRlen : R ≤ l.length)
    (hlt : ∀ i, i < R → p l[i]! = false)
    (hR : R = l.length ∨ p l[R]! = true) : l.findIdx p = R := by
  rcases Nat.lt_trichotomy (l.findIdx p) R with h | h | h
  · have hx : p l[l.findIdx p] = true :=
      @List.findIdx_getElem _ p l (Nat.lt_of_lt_of_le h hRlen)
    have hx' : p l[l.findIdx p]! = false := hlt _ h
    rw [getElem!_pos l _ (Nat.lt_of_lt_of_le h hRlen)] at hx'
    rw [hx] at hx'
    exact absurd hx' (by simp)
  · exact h
  · rcases hR with h1 | h1
    · exact absurd (h1 ▸ h) (Nat.not_lt.mpr (List.findIdx_le_length p))
    · have hRl : R < l.length := by
        rcases Nat.lt_or_ge R l.length with h2 | h2
        · exact h2
        · exact absurd (Nat.lt_of_lt_of_le h (List.findIdx_le_length p)) (Nat.not_lt.mpr h2)
      have := List.not_of_lt_findIdx h
      rw [getElem!_pos l R hRl] at h1
      rw [h1] at this
      exact absurd this (by simp)

/-- Specification of the binary-search loop: started on `[s, e)` with the
invariant `fil[s] < v` and (`e` past the end or `v ≤ fil[e]`), it lands on the
least in-range index at which `fil` reaches `v`. -/
lemma bsLoop_spec (fil : List ℚ) (v : ℚ) (hs : fil.Sorted (· ≤ ·)) :
    ∀ n s e, e - s ≤ n → s < e → e ≤ fil.length →
      fil[s]! < v → (e = fil.length ∨ v ≤ fil[e]!) →
      (∀ i, i < bsLoop fil v s e → fil[i]! < v) ∧
      (bsLoop fil v s e = fil.length ∨ v ≤ fil[bsLoop fil v s e]!) ∧
      bsLoop fil v s e ≤ e := by
  intro n
  induction n with
  | zero =>
      intro s e hn hse _ _ _
      omega
  | succ n ih =>
      intro s e hn hse helen hsv hev
      rw [bsLoop]
      by_cases hcond : s + 1 < e
      · simp only [if_pos hcond]
        by_cases hmid : v ≤ fil[(s + e) / 2]!
        · simp only [if_pos hmid]
          have h1 : (s + e) / 2 - s ≤ n := by omega
          have h2 : s < (s + e) / 2 := by omega
          have h3 : (s + e) / 2 ≤ fil.length := by omega
          have := ih s ((s + e) / 2) h1 h2 h3 hsv (Or.inr hmid)
          exact ⟨this.1, this.2.1, Nat.le_trans this.2.2 (by omega)⟩
        · simp only [if_neg hmid]
          have h1 : e - (s + e) / 2 ≤ n := by omega
          have h2 : (s + e) / 2 < e := by omega
          have := ih ((s + e) / 2) e h1 h2 helen (lt_of_not_le hmid) hev
          exact ⟨this.1, this.2.1, this.2.2⟩
      · simp only [if_neg hcond]
        have hes : e = s + 1 := by omega
        refine ⟨?_, hev, le_refl e⟩
        intro i hie
        have his : i ≤ s := by omega
        have hilen : s < fil.length := by omega
        exact lt_of_le_of_lt (sorted_getElemBang hs his hilen) hsv

/-- Theorem: `first_greater_than_or_equal_to` equals the naive lower bound: the first
index whose filter value is `≥ v`, or the length when there is none. -/
lemma first_ge_eq (fil : List ℚ) (v : ℚ) (hs : fil.Sorted (· ≤ ·))
    (hne : fil ≠ []) :
    first_ge v fil = fil.findIdx (fun x => decide (v ≤ x)) := by
  have hlen : 0 < fil.length := List.length_pos.mpr hne
  unfold first_ge
  by_cases h0 : v ≤ fil[0]!
  · simp only [if_pos h0]
    cases fil with
    | nil => simp at hlen
    | cons a t =>
        have : v ≤ a := by simpa [getElem!_pos] using h0
        simp [List.findIdx_cons, this]
  · simp only [if_neg h0]
    have := bsLoop_spec fil v hs fil.length 0 fil.length (by omega) hlen (le_refl _)
      (lt_of_not_le h0) (Or.inl rfl)
    refine (findIdx_eq_of _ _ _ ?_ ?_ ?_).symm
    · exact Nat.le_trans this.2.2 (le_refl _)
    · intro i hi
      simpa using not_le.mpr (this.1 i hi)
    · rcases this.2.1 with h | h
      · exact Or.inl h
      · exact Or.inr (by simpa using h)

/-! ## Lemmas: bucket-splitting arithmetic -/

lemma getLastBang_eq {α : Type} [Inhabited α] (l : List α) (h : l ≠ []) :
    l.getLast! = l.getLast h := by
  cases l with
  | nil => exact absurd rfl h
  | cons a t => simp [List.getLast!]

lemma getLastBang_concat {α : Type} [Inhabited α] (l : List α) (x : α) :
    (l ++ [x]).getLast! = x :=
  (getLastBang_eq _ (by simp)).trans (List.getLast_concat _)

lemma getBang_range_map {β : Type} [Inhabited β] (g : ℕ → β) {n j : ℕ} (hj : j < n) :
    ((List.range n).map g)[j]! = g j := by
  have hlen : j < ((List.range n).map g).length := by simpa using hj
  rw [getElem!_pos ((List.range n).map g) j hlen, List.getElem_map, List.getElem_range]

lemma largeOf_eq {S f : ℕ} (hS : 1 ≤ S) (hf : 1 ≤ f) :
    largeOf S f = (S - 1) / f + 1 := by
  unfold largeOf
  rw [show S + f - 1 = S - 1 + f by omega, Nat.add_div_right _ hf]

lemma largeOf_zero (f : ℕ) : largeOf 0 f = 0 := by
  unfold largeOf
  rcases Nat.eq_zero_or_pos f with h | h
  · subst h; rfl
  · exact Nat.div_eq_of_lt (by omega)

lemma largeOf_mono {S S2 f : ℕ} (h : S ≤ S2) : largeOf S f ≤ largeOf S2 f :=
  Nat.div_le_div_right (by omega)

lemma largeOf_lt {S f : ℕ} (hS : 2 ≤ S) (hf : 2 ≤ f) : largeOf S f < S := by
  rw [largeOf_eq (by omega) (by omega)]
  have h1 : (S - 1) / f ≤ (S - 1) / 2 := Nat.div_le_div_left hf (by omega)
  have h2 := Nat.div_add_mod (S - 1) 2
  generalize (S - 1) / f = q at h1 ⊢
  omega

lemma numLarger_bounds {S f : ℕ} (hS : 1 ≤ S) (hf : 1 ≤ f) :
    1 ≤ numLarger S f ∧ numLarger S f ≤ f ∧
    (largeOf S f - 1) * f + numLarger S f = S := by
  have he := largeOf_eq hS hf
  have hdm := Nat.div_add_mod (S - 1) f
  have hml : (S - 1) % f < f := Nat.mod_lt _ (by omega)
  unfold numLarger
  generalize (S - 1) / f = q at he hdm
  generalize (S - 1) % f = m at hdm hml
  rw [he, show (q + 1 - 1) * f = f * q by rw [Nat.add_sub_cancel, Nat.mul_comm]]
  omega

lemma numLarger_zero (f : ℕ) : numLarger 0 f = 0 := by
  unfold numLarger
  omega

lemma childSize_le (S f i : ℕ) : childSize S f i ≤ largeOf S f := by
  unfold childSize
  split <;> omega

lemma childSize_ge (S f i : ℕ) : largeOf S f - 1 ≤ childSize S f i := by
  unfold childSize
  split <;> omega

lemma childSize_zero {S f : ℕ} (hf : 1 ≤ f) : childSize S f 0 = largeOf S f := by
  unfold childSize
  rcases Nat.eq_zero_or_pos S with h | h
  · subst h
    rw [numLarger_zero]
    simp [largeOf_zero]
  · have := (numLarger_bounds h hf).1
    rw [if_pos (by omega)]

lemma childStart_zero (ls S f : ℕ) : childStart ls S f 0 = ls := by
  unfold childStart
  by_cases h : 0 < numLarger S f
  · rw [if_pos h]
    omega
  · rw [if_neg h, show numLarger S f = 0 by omega]
    simp

lemma childStart_succ (ls S f i : ℕ) :
    childStart ls S f (i + 1) = childStart ls S f i + childSize S f i := by
  unfold childStart childSize
  by_cases h1 : i + 1 < numLarger S f
  · rw [if_pos h1, if_pos (by omega), if_pos (by omega), Nat.succ_mul]
    omega
  · rw [if_neg h1]
    by_cases h2 : i < numLarger S f
    · have hir : numLarger S f = i + 1 := by omega
      rw [if_pos h2, if_pos h2, hir]
      rw [show i + 1 - (i + 1) = 0 by omega, Nat.succ_mul]
      omega
    · rw [if_neg h2, if_neg h2]
      rw [show i + 1 - numLarger S f = (i - numLarger S f) + 1 by omega, Nat.succ_mul]
      omega

lemma childStart_mono (ls S f : ℕ) {i j : ℕ} (h : i ≤ j) :
    childStart ls S f i ≤ childStart ls S f j := by
  induction j with
  | zero =>
      rw [show i = 0 by omega]
  | succ j ih =>
      rcases Nat.lt_or_ge i (j + 1) with h2 | h2
      · calc childStart ls S f i ≤ childStart ls S f j := ih (by omega)
          _ ≤ childStart ls S f (j + 1) := by rw [childStart_succ]; omega
      · rw [show i = j + 1 by omega]

lemma childStart_top {ls S f : ℕ} (hf : 1 ≤ f) : childStart ls S f f = ls + S := by
  rcases Nat.eq_zero_or_pos S with h | h
  · subst h
    unfold childStart
    rw [numLarger_zero]
    simp [largeOf_zero]
  · obtain ⟨hr1, hrf, hsum⟩ := numLarger_bounds h hf
    have hL1 : 1 ≤ largeOf S f := by
      rw [largeOf_eq h hf]
      exact Nat.le_add_left _ _
    unfold childStart
    rw [if_neg (by omega)]
    set q := largeOf S f - 1 with hqdef
    have hLq : largeOf S f = q + 1 := by omega
    rw [hLq]
    have e1 : numLarger S f * (q + 1) = numLarger S f * q + numLarger S f :=
      Nat.mul_succ _ _
    have e3 : (f - numLarger S f) * q = f * q - numLarger S f * q := Nat.sub_mul _ _ _
    have e4 : numLarger S f * q ≤ f * q := Nat.mul_le_mul_right _ hrf
    have e5 : q * f = f * q := Nat.mul_comm _ _
    rw [e1, e3]
    omega

/-! ## Lemmas: `splitLevel` entries -/

lemma getBang_append_left {α : Type} [Inhabited α] {l1 l2 : List α} {j : ℕ}
    (hj : j < l1.length) : (l1 ++ l2)[j]! = l1[j]! := by
  rw [getElem!_pos (l1 ++ l2) j (by rw [List.length_append]; omega),
    List.getElem_append_left hj, getElem!_pos l1 j hj]

lemma getBang_concat_length {α : Type} [Inhabited α] (l : List α) (x : α) :
    (l ++ [x])[l.length]! = x := by
  rw [getElem!_pos _ _ (by simp), List.getElem_append_right (le_refl _)]
  simp

lemma splitLevel_length (off : List ℕ) (f N : ℕ) :
    (splitLevel off f N).length = (off.length - 1) * f + 1 := by
  unfold splitLevel
  simp

lemma splitLevel_lastEntry (off : List ℕ) (f N : ℕ) :
    (splitLevel off f N)[(off.length - 1) * f]! = N := by
  unfold splitLevel
  have h := getBang_concat_length ((List.range ((off.length - 1) * f)).map
    (fun j => childStart (off[j / f]!) (off[j / f + 1]! - off[j / f]!) f (j % f))) N
  simpa using h

lemma splitLevel_getElem {off : List ℕ} {f N j : ℕ} (hj : j < (off.length - 1) * f) :
    (splitLevel off f N)[j]! =
      childStart (off[j / f]!) (off[j / f + 1]! - off[j / f]!) f (j % f) := by
  unfold splitLevel
  rw [getBang_append_left (by simpa using hj), getBang_range_map _ hj]

lemma splitLevel_getElem_bi {off : List ℕ} {f N b i : ℕ} (hf : 0 < f)
    (hb : b < off.length - 1) (hi : i < f) :
    (splitLevel off f N)[b * f + i]! =
      childStart (off[b]!) (off[b + 1]! - off[b]!) f i := by
  have hj : b * f + i < (off.length - 1) * f := by
    calc b * f + i < b * f + f := by omega
      _ = (b + 1) * f := (Nat.succ_mul b f).symm
      _ ≤ (off.length - 1) * f := Nat.mul_le_mul_right f (by omega)
  rw [splitLevel_getElem hj]
  have h1 : (b * f + i) / f = b := by
    rw [Nat.add_comm, Nat.add_mul_div_right i b hf, Nat.div_eq_of_lt hi, Nat.zero_add]
  have h2 : (b * f + i) % f = i := by
    rw [Nat.add_comm, Nat.add_mul_mod_self_right, Nat.mod_eq_of_lt hi]
  rw [h1, h2]

/-- The step equation for consecutive entries of a split level: the size of
child `i` of parent `b` is `childSize` of the parent's size. -/
lemma splitLevel_succ_bi {off : List ℕ} {f N b i : ℕ} (hf : 2 ≤ f)
    (h : levelOK N off) (hb : b < off.length - 1) (hi : i < f) :
    (splitLevel off f N)[b * f + i + 1]! =
      (splitLevel off f N)[b * f + i]! + childSize (off[b + 1]! - off[b]!) f i := by
  obtain ⟨hlen, h0, hN, hmono, hmax⟩ := h
  by_cases hend : i + 1 < f
  · have : b * f + i + 1 = b * f + (i + 1) := by omega
    rw [this, splitLevel_getElem_bi (by omega) hb hend,
      splitLevel_getElem_bi (by omega) hb hi, childStart_succ]
  · have hif : i = f - 1 := by omega
    have hisucc : i + 1 = f := by omega
    have hbf : b * f + i + 1 = (b + 1) * f := by
      rw [Nat.succ_mul]
      omega
    have hofb : off[b]! ≤ off[b + 1]! := hmono b (by omega)
    have htop : off[b + 1]! = childStart (off[b]!) (off[b + 1]! - off[b]!) f f := by
      rw [childStart_top (by omega)]
      omega
    have hright : (splitLevel off f N)[b * f + i + 1]! = off[b + 1]! := by
      rcases Nat.lt_or_ge (b + 1) (off.length - 1) with h2 | h2
      · rw [hbf, show (b + 1) * f = (b + 1) * f + 0 by omega,
          splitLevel_getElem_bi (by omega) h2 (by omega), childStart_zero]
      · have hbeq : b + 1 = off.length - 1 := by omega
        rw [hbf, hbeq, splitLevel_lastEntry]
        rw [show off.length - 1 = off.length - 1 + 1 - 1 by omega] at hN
        rw [← hbeq] at hN ⊢
        rw [show b + 1 + 1 - 1 = b + 1 by omega] at hN
        exact hN.symm
    have htop2 : off[b + 1]! = childStart (off[b]!) (off[b + 1]! - off[b]!) f (i + 1) := by
      rw [hisucc]
      exact htop
    calc (splitLevel off f N)[b * f + i + 1]! = off[b + 1]! := hright
      _ = childStart (off[b]!) (off[b + 1]! - off[b]!) f (i + 1) := htop2
      _ = childStart (off[b]!) (off[b + 1]! - off[b]!) f i +
            childSize (off[b + 1]! - off[b]!) f i := childStart_succ _ _ _ _
      _ = (splitLevel off f N)[b * f + i]! + childSize (off[b + 1]! - off[b]!) f i := by
          rw [splitLevel_getElem_bi (by omega) hb hi]

/-- Invariant `levelOK` is preserved by splitting a level. -/
lemma levelOK_splitLevel {off : List ℕ} {f N : ℕ} (hf : 2 ≤ f)
    (h : levelOK N off) : levelOK N (splitLevel off f N) := by
  have hlen := h.1
  have h0 := h.2.1
  have hN := h.2.2.1
  have hmono := h.2.2.2.1
  have hmax := h.2.2.2.2
  have hnum : 1 ≤ off.length - 1 := by omega
  have hone : 1 * 1 ≤ (off.length - 1) * f := Nat.mul_le_mul (by omega) (by omega)
  have hfirst0 : (splitLevel off f N)[0]! = 0 := by
    have := @splitLevel_getElem_bi off f N 0 0 (show 0 < f by omega)
      (show 0 < off.length - 1 by omega) (show 0 < f by omega)
    rw [show (0 : ℕ) * f + 0 = 0 by omega] at this
    rw [this, childStart_zero, h0]
  have hsucc : ∀ j, j + 1 < (off.length - 1) * f + 1 →
      (splitLevel off f N)[j + 1]! =
        (splitLevel off f N)[j]! + childSize (off[j / f + 1]! - off[j / f]!) f (j % f) := by
    intro j hj
    obtain ⟨b, i, rfl, hb, hi⟩ : ∃ b i, j = b * f + i ∧ b < off.length - 1 ∧ i < f := by
      refine ⟨j / f, j % f, ?_, ?_, Nat.mod_lt _ (by omega)⟩
      · rw [Nat.mul_comm]
        exact (Nat.div_add_mod j f).symm
      · rw [Nat.div_lt_iff_lt_mul (by omega)]
        omega
    have h1 : (b * f + i) / f = b := by
      rw [Nat.add_comm, Nat.add_mul_div_right i b (by omega), Nat.div_eq_of_lt hi,
        Nat.zero_add]
    have h2 : (b * f + i) % f = i := by
      rw [Nat.add_comm, Nat.add_mul_mod_self_right, Nat.mod_eq_of_lt hi]
    rw [h1, h2]
    exact splitLevel_succ_bi hf h hb hi
  have hfirstSize : (splitLevel off f N)[1]! = largeOf (off[1]! - off[0]!) f := by
    have := hsucc 0 (by omega)
    rw [hfirst0] at this
    simp only [Nat.zero_div, Nat.zero_mod, Nat.zero_add] at this
    rw [this, childSize_zero (by omega)]
  refine ⟨?_, hfirst0, ?_, ?_, ?_⟩
  · rw [splitLevel_length]
    omega
  · rw [splitLevel_length, Nat.add_sub_cancel, splitLevel_lastEntry]
  · intro j hj
    rw [splitLevel_length] at hj
    rw [hsucc j hj]
    omega
  · intro j hj
    rw [splitLevel_length] at hj
    rw [hsucc j hj, hfirst0, hfirstSize, Nat.sub_zero]
    have hb : j / f < off.length - 1 := by
      rw [Nat.div_lt_iff_lt_mul (by omega)]
      omega
    have hle1 : childSize (off[j / f + 1]! - off[j / f]!) f (j % f) ≤
        largeOf (off[j / f + 1]! - off[j / f]!) f := childSize_le _ _ _
    have hle2 : largeOf (off[j / f + 1]! - off[j / f]!) f ≤ largeOf (off[1]! - off[0]!) f :=
      largeOf_mono (hmax (j / f) (by omega))
    omega

/-! ## Lemmas: the constructor's sort (lines 34-57 of the header) -/

lemma sortIndices_perm (n : ℕ) (fil : ℕ → ℚ) :
    (sortIndices n fil).Perm (List.range n) :=
  List.perm_insertionSort _ _

lemma sortIndices_length (n : ℕ) (fil : ℕ → ℚ) : (sortIndices n fil).length = n := by
  rw [(sortIndices_perm n fil).length_eq, List.length_range]

lemma sortIndices_pairwise (n : ℕ) (fil : ℕ → ℚ) :
    List.Pairwise (filLE fil) (sortIndices n fil) :=
  List.sorted_insertionSort _ _

lemma sortedFilters_mono (n : ℕ) (fil : ℕ → ℚ) :
    ∀ i, i + 1 < n → (sortedFilters n fil)[i]! ≤ (sortedFilters n fil)[i + 1]! := by
  intro i hi
  have hlen := sortIndices_length n fil
  have hmap : (sortedFilters n fil).length = n := by
    unfold sortedFilters
    rw [List.length_map, hlen]
  rw [getElem!_pos (sortedFilters n fil) i (by omega),
    getElem!_pos (sortedFilters n fil) (i + 1) (by omega)]
  unfold sortedFilters
  rw [List.getElem_map, List.getElem_map]
  exact List.pairwise_iff_getElem.mp (sortIndices_pairwise n fil) i (i + 1)
    (by omega) (by omega) (by omega)

lemma decoding_length (n : ℕ) (fil : ℕ → ℚ) : (decoding n fil).length = n :=
  sortIndices_length n fil

lemma decoding_nodup (n : ℕ) (fil : ℕ → ℚ) : (decoding n fil).Nodup :=
  ((sortIndices_perm n fil).nodup_iff).mpr (List.nodup_range n)

lemma decoding_inj (n : ℕ) (fil : ℕ → ℚ) :
    ∀ i j, i < n → j < n → (decoding n fil)[i]! = (decoding n fil)[j]! → i = j := by
  intro i j hi hj hij
  have hlen : (decoding n fil).length = n := sortIndices_length n fil
  have hnd := decoding_nodup n fil
  rcases Nat.lt_trichotomy i j with h | h | h
  · have hne := List.pairwise_iff_getElem.mp hnd i j (by omega) (by omega) h
    rw [getElem!_pos (decoding n fil) i (by omega),
      getElem!_pos (decoding n fil) j (by omega)] at hij
    exact absurd hij hne
  · exact h
  · have hne := List.pairwise_iff_getElem.mp hnd j i (by omega) (by omega) h
    rw [getElem!_pos (decoding n fil) i (by omega),
      getElem!_pos (decoding n fil) j (by omega)] at hij
    exact absurd hij.symm hne

lemma decoding_surj (n : ℕ) (fil : ℕ → ℚ) :
    ∀ v, v < n → ∃ i, i < n ∧ (decoding n fil)[i]! = v := by
  intro v hv
  have hmem : v ∈ decoding n fil :=
    ((sortIndices_perm n fil).mem_iff).mpr (List.mem_range.mpr hv)
  obtain ⟨i, hilen, hgi⟩ := List.mem_iff_getElem.mp hmem
  refine ⟨i, ?_, ?_⟩
  · rw [← decoding_length n fil]
    exact hilen
  · rw [getElem!_pos (decoding n fil) i hilen, hgi]

lemma sortedFilters_eq (n : ℕ) (fil : ℕ → ℚ) :
    ∀ i, i < n → (sortedFilters n fil)[i]! = fil ((decoding n fil)[i]!) := by
  intro i hi
  have hlen := sortIndices_length n fil
  unfold sortedFilters
  rw [getElem!_pos ((sortIndices n fil).map fil) i (by rw [List.length_map, hlen]; omega),
    List.getElem_map, show decoding n fil = sortIndices n fil from rfl,
    getElem!_pos (sortIndices n fil) i (by rw [hlen]; omega)]

lemma dataSorted_getElem (n d : ℕ) (data : ℕ → ℚ) (fil : ℕ → ℚ) {i dim : ℕ}
    (hi : i < n) (hdim : dim < d) :
    (dataSorted n d data fil)[i * d + dim]! =
      data ((sortIndices n fil)[i]! * d + dim) := by
  unfold dataSorted
  have hidx : i * d + dim < n * d := by
    calc i * d + dim < i * d + d := by omega
      _ = (i + 1) * d := (Nat.succ_mul i d).symm
      _ ≤ n * d := Nat.mul_le_mul_right d (by omega)
  rw [getBang_range_map _ hidx]
  have h1 : (i * d + dim) / d = i := by
    rw [Nat.add_comm, Nat.add_mul_div_right dim i (by omega), Nat.div_eq_of_lt hdim,
      Nat.zero_add]
  have h2 : (i * d + dim) % d = dim := by
    rw [Nat.add_comm, Nat.add_mul_mod_self_right, Nat.mod_eq_of_lt hdim]
  rw [h1, h2]

/-! ## Lemmas: early returns and bounds-checked accesses -/

lemma getBang_cons_zero {α : Type} [Inhabited α] (a : α) (t : List α) :
    (a :: t)[0]! = a := by
  rw [getElem!_pos (a :: t) 0 (by simp)]
  rfl

lemma getBang_cons_succ {α : Type} [Inhabited α] (a : α) (t : List α) (i : ℕ) :
    (a :: t)[i + 1]! = t[i]! := by
  by_cases h : i < t.length
  · rw [getElem!_pos (a :: t) (i + 1) (by simp; omega), getElem!_pos t i h]
    simp
  · rw [getElem!_neg (a :: t) (i + 1) (by simp; omega), getElem!_neg t i (by omega)]

lemma searchInRange_k0 (offs : List (List ℕ)) (dec : List ℕ)
    (beam : ℕ → ℕ → List (ℕ × ℚ)) (s e : ℕ) :
    searchInRange offs dec beam s e 0 = [] := by
  unfold searchInRange
  simp

lemma headBang_eq {α : Type} [Inhabited α] (a : α) (t : List α) :
    (a :: t).head! = a := rfl

lemma check_empty_opt_some (fil : List ℚ) (lo hi : ℚ) (h : fil ≠ []) :
    check_empty_opt fil lo hi = some (check_empty fil lo hi) := by
  cases fil with
  | nil => exact absurd rfl h
  | cons a t =>
      unfold check_empty_opt check_empty
      rw [List.getLast?_eq_getLast (a :: t) (by simp), List.head?_cons]
      rw [headBang_eq, getLastBang_eq (a :: t) (by simp)]

lemma first_ge_opt_some (v : ℚ) (fil : List ℚ) (h : fil ≠ []) :
    first_ge_opt v fil = some (first_ge v fil) := by
  cases fil with
  | nil => exact absurd rfl h
  | cons a t =>
      unfold first_ge_opt first_ge
      rw [show (a :: t)[0]? = some a from by simp, getBang_cons_zero]

lemma optSearch_opt_some (fil : List ℚ) (offs : List (List ℕ)) (dec : List ℕ)
    (beam : ℕ → ℕ → List (ℕ × ℚ)) (lo hi : ℚ) (k : ℕ) (h : fil ≠ []) :
    optSearch_opt fil offs dec beam lo hi k =
      some (optSearch fil offs dec beam lo hi k) := by
  unfold optSearch_opt optSearch rangeTranslate
  rw [check_empty_opt_some fil lo hi h, first_ge_opt_some lo fil h,
    first_ge_opt_some hi fil h]
  by_cases hc : check_empty fil lo hi
  · rw [hc]
    rfl
  · simp only [Bool.not_eq_true] at hc
    rw [hc]
    rfl

lemma optSearch_opt_nil (offs : List (List ℕ)) (dec : List ℕ)
    (beam : ℕ → ℕ → List (ℕ × ℚ)) (lo hi : ℚ) (k : ℕ) :
    optSearch_opt [] offs dec beam lo hi k = none := rfl

/-! ## Lemmas: `read_two_floats_per_line` -/

lemma readTwoLoop_ok {α : Type} (stof : List Char → Option α) :
    ∀ lines k, (∀ line ∈ lines, (lineParse stof line).isSome) →
      readTwoLoop stof k lines = Except.ok (lines.filterMap (lineParse stof)) := by
  intro lines
  induction lines with
  | nil =>
      intro k _
      rfl
  | cons line rest ih =>
      intro k h
      have hline := h line (by simp)
      rw [Option.isSome_iff_exists] at hline
      obtain ⟨xy, hxy⟩ := hline
      unfold readTwoLoop
      rw [hxy, ih (k + 1) (fun l hl => h l (by simp [hl])), List.filterMap_cons, hxy]

lemma readTwoLoop_err {α : Type} (stof : List Char → Option α) :
    ∀ lines k j, j < lines.length →
      (∀ m, m < j → (lineParse stof lines[m]!).isSome) →
      (lineParse stof lines[j]!).isNone →
      readTwoLoop stof k lines = Except.error (lineErr (k + j + 1) lines[j]!) := by
  intro lines
  induction lines with
  | nil =>
      intro k j hj _ _
      simp at hj
  | cons line rest ih =>
      intro k j hj hpre hbad
      cases j with
      | zero =>
          rw [getBang_cons_zero] at hbad ⊢
          unfold readTwoLoop
          rw [Option.isNone_iff_eq_none] at hbad
          rw [hbad, show k + 0 + 1 = k + 1 by omega]
      | succ j =>
          have hhead := hpre 0 (by omega)
          rw [getBang_cons_zero] at hhead
          rw [Option.isSome_iff_exists] at hhead
          obtain ⟨xy, hxy⟩ := hhead
          unfold readTwoLoop
          rw [hxy]
          have hrec := ih (k + 1) j (by simpa using hj)
            (fun m hm => by
              have hp := hpre (m + 1) (by omega)
              rwa [getBang_cons_succ] at hp)
            (by rwa [getBang_cons_succ] at hbad)
          rw [hrec, getBang_cons_succ, show k + 1 + j + 1 = k + (j + 1) + 1 by omega]

/-! ## Lemmas: the construction loop -/

lemma buildLoop_inv (N cU f : ℕ) (P : List ℕ → Prop)
    (hstep : ∀ off, P off → P (splitLevel off f N)) :
    ∀ fuel ls L, buildLoop N cU f fuel ls = some L →
      ls ≠ [] → (∀ off ∈ ls, P off) →
      List.Chain' (fun a b => b = splitLevel a f N) ls →
      L ≠ [] ∧ (∀ off ∈ L, P off) ∧
      List.Chain' (fun a b => b = splitLevel a f N) L ∧
      L.getLast![1]! ≤ cU := by
  intro fuel
  induction fuel with
  | zero =>
      intro ls L hL hne hall hchain
      unfold buildLoop at hL
      by_cases hc : cU < ls.getLast![1]!
      · rw [if_pos hc] at hL
        exact absurd hL (by simp)
      · rw [if_neg hc] at hL
        injection hL with h
        subst h
        exact ⟨hne, hall, hchain, by omega⟩
  | succ fuel ih =>
      intro ls L hL hne hall hchain
      unfold buildLoop at hL
      by_cases hc : cU < ls.getLast![1]!
      · rw [if_pos hc] at hL
        have hPlast : P ls.getLast! := by
          rw [getLastBang_eq ls hne]
          exact hall _ (List.getLast_mem hne)
        refine ih (ls ++ [splitLevel ls.getLast! f N]) L hL (by simp) ?_ ?_
        · intro off hoff
          rcases List.mem_append.mp hoff with h | h
          · exact hall off h
          · rw [List.mem_singleton] at h
            subst h
            exact hstep _ hPlast
        · rw [List.chain'_append]
          refine ⟨hchain, List.chain'_singleton _, ?_⟩
          intro x hx y hy
          rw [List.getLast?_eq_getLast ls hne] at hx
          simp only [Option.mem_def, Option.some.injEq] at hx
          simp only [List.head?_cons, Option.mem_def, Option.some.injEq] at hy
          subst hx
          subst hy
          rw [getLastBang_eq ls hne]
      · rw [if_neg hc] at hL
        injection hL with h
        subst h
        exact ⟨hne, hall, hchain, by omega⟩

lemma splitLevel_entry_one {off : List ℕ} {f N : ℕ} (hf : 2 ≤ f)
    (hlen : 2 ≤ off.length) (h0 : off[0]! = 0) :
    (splitLevel off f N)[1]! = largeOf (off[1]!) f := by
  have h := @splitLevel_getElem_bi off f N 0 1 (by omega) (by omega) (by omega)
  rw [show (0 : ℕ) * f + 1 = 1 by omega] at h
  have h2 : childStart (off[0]!) (off[1]! - off[0]!) f 1 =
      childStart (off[0]!) (off[1]! - off[0]!) f 0 +
        childSize (off[1]! - off[0]!) f 0 := by
    simpa using childStart_succ (off[0]!) (off[1]! - off[0]!) f 0
  rw [h, h2, childStart_zero, childSize_zero (by omega), h0]
  simp

lemma buildLoop_terminates (N cU f : ℕ) (hcU : 1 ≤ cU) (hf : 2 ≤ f) :
    ∀ fuel ls, ls ≠ [] → 2 ≤ ls.getLast!.length → ls.getLast![0]! = 0 →
      ls.getLast![1]! ≤ fuel + cU →
      ∃ L, buildLoop N cU f fuel ls = some L := by
  intro fuel
  induction fuel with
  | zero =>
      intro ls hne hlen h0 hsz
      unfold buildLoop
      rw [if_neg (by omega)]
      exact ⟨ls, rfl⟩
  | succ fuel ih =>
      intro ls hne hlen h0 hsz
      unfold buildLoop
      by_cases hc : cU < ls.getLast![1]!
      · rw [if_pos hc]
        apply ih
        · simp
        · rw [getLastBang_concat, splitLevel_length]
          have : 1 * 1 ≤ (ls.getLast!.length - 1) * f := Nat.mul_le_mul (by omega) (by omega)
          omega
        · rw [getLastBang_concat]
          have h := @splitLevel_getElem_bi ls.getLast! f N 0 0 (by omega) (by omega)
            (by omega)
          rw [show (0 : ℕ) * f + 0 = 0 by omega] at h
          rw [h, childStart_zero, h0]
        · rw [getLastBang_concat, splitLevel_entry_one hf hlen h0]
          have hlt : largeOf (ls.getLast![1]!) f < ls.getLast![1]! :=
            largeOf_lt (by omega) hf
          omega
      · rw [if_neg hc]
        exact ⟨ls, rfl⟩

/-! ## Lemmas: assembling the layout invariants -/

lemma pairGet0 (a b : ℕ) : ([a, b] : List ℕ)[0]! = a := getBang_cons_zero a [b]

lemma pairGet1 (a b : ℕ) : ([a, b] : List ℕ)[1]! = b := by
  rw [getBang_cons_succ, getBang_cons_zero]

lemma levelOK_init (N : ℕ) : levelOK N [0, N] := by
  refine ⟨by simp, pairGet0 0 N, ?_, ?_, ?_⟩
  · simp only [List.length_cons, List.length_nil]
    rw [show (0 : ℕ) + 1 + 1 - 1 = 1 by omega, pairGet1]
  · intro b hb
    simp only [List.length_cons, List.length_nil] at hb
    rw [show b = 0 by omega, pairGet0, pairGet1]
    omega
  · intro b hb
    simp only [List.length_cons, List.length_nil] at hb
    rw [show b = 0 by omega]

lemma chain'_getElemBang {α : Type} [Inhabited α] {R : α → α → Prop} {l : List α}
    (h : List.Chain' R l) {i : ℕ} (hi : i + 1 < l.length) : R l[i]! l[i + 1]! := by
  rw [getElem!_pos l i (by omega), getElem!_pos l (i + 1) hi]
  have hr := List.chain'_iff_get.mp h i (by omega)
  simpa [List.get_eq_getElem] using hr

/-- Everything the loop invariant yields about a successful `buildOffsets`
run: every level satisfies `levelOK`, consecutive levels are linked by
`splitLevel`, the result is nonempty, and the loop's exit condition holds at
the last level. -/
lemma buildOffsets_inv {N : ℕ} {cutoff : ℤ} {f fuel : ℕ} {L : List (List ℕ)}
    (hf : 2 ≤ f) (hL : buildOffsets N cutoff f fuel = some L) :
    L ≠ [] ∧ (∀ off ∈ L, levelOK N off) ∧
    List.Chain' (fun a b => b = splitLevel a f N) L ∧
    L.getLast![1]! ≤ usize cutoff := by
  refine buildLoop_inv N (usize cutoff) f (levelOK N)
    (fun off hoff => levelOK_splitLevel hf hoff) fuel [[0, N]] L hL (by simp) ?_ ?_
  · intro off hoff
    rw [List.mem_singleton] at hoff
    subst hoff
    exact levelOK_init N
  · exact List.chain'_singleton _

/-! ## Fidelity of the mod-2^64 child-offset computation -/

lemma childStart_S0 (ls f i : ℕ) : childStart ls 0 f i = ls := by
  unfold childStart
  rw [numLarger_zero]
  simp [largeOf_zero]

/-- On every input the constructor can reach (`ls ≤ le`, offsets bounded by
the corpus size, a representable `split_factor`), the faithful `size_t`
computation `childStart64` — underflow of `small_bucket_size` at `S = 0`
included — produces exactly the offsets of `childStart`. -/
lemma childStart64_eq {ls le f i : ℕ} (hls : ls ≤ le) (hcap : le + f ≤ M64)
    (hf : 1 ≤ f) (hfM : f < M64) (hi : i ≤ f) :
    childStart64 ls le f i = childStart ls (le - ls) f i := by
  have hM : (0 : ℕ) < M64 := by norm_num [M64]
  have hle : le < M64 := by omega
  have hlsM : ls < M64 := by omega
  simp only [childStart64]
  have h1 : 1 % M64 = 1 := Nat.mod_eq_of_lt (by omega)
  rw [h1]
  have hS : (le % M64 + (M64 - ls % M64)) % M64 = le - ls := by
    rw [Nat.mod_eq_of_lt hle, Nat.mod_eq_of_lt hlsM,
      show le + (M64 - ls) = (le - ls) + M64 by omega, Nat.add_mod_right,
      Nat.mod_eq_of_lt (by omega)]
  rw [hS]
  set Sv := le - ls with hSv
  have hnum : ((Sv + f) % M64 + (M64 - 1)) % M64 = Sv + f - 1 := by
    rcases Nat.lt_or_ge (Sv + f) M64 with h2 | h2
    · rw [Nat.mod_eq_of_lt h2, show Sv + f + (M64 - 1) = (Sv + f - 1) + M64 by omega,
        Nat.add_mod_right, Nat.mod_eq_of_lt (by omega)]
    · rw [show Sv + f = M64 by omega, Nat.mod_self, Nat.zero_add,
        Nat.mod_eq_of_lt (by omega)]
  rw [hnum, show (Sv + f - 1) / f = largeOf Sv f from rfl]
  rcases Nat.eq_zero_or_pos Sv with hS0 | hS1
  · rw [hS0, largeOf_zero]
    have hsm : (0 % M64 + (M64 - 1)) % M64 = M64 - 1 := by
      rw [Nat.zero_mod, Nat.zero_add, Nat.mod_eq_of_lt (by omega)]
    rw [hsm]
    have hsf : (M64 - 1) * f % M64 = M64 - f := by
      rw [Nat.sub_mul, Nat.one_mul]
      have e : M64 * f = M64 * (f - 1) + M64 := by
        conv_lhs => rw [show f = f - 1 + 1 by omega]
        rw [Nat.mul_add, Nat.mul_one]
      rw [show M64 * f - f = (M64 - f) + M64 * (f - 1) by omega,
        Nat.add_mul_mod_self_left, Nat.mod_eq_of_lt (by omega)]
    rw [hsf]
    have hr : (0 % M64 + (M64 - (M64 - f))) % M64 = f := by
      rw [Nat.zero_mod, Nat.zero_add, show M64 - (M64 - f) = f by omega,
        Nat.mod_eq_of_lt hfM]
    rw [hr, childStart_S0]
    by_cases hif : i < f
    · rw [if_pos hif, Nat.mul_zero, Nat.zero_mod, Nat.add_zero,
        Nat.mod_eq_of_lt hlsM]
    · rw [if_neg hif, Nat.mul_zero, Nat.zero_mod, Nat.add_zero,
        Nat.mod_eq_of_lt hlsM, show i - f = 0 by omega, Nat.zero_mul,
        Nat.zero_mod, Nat.add_zero, Nat.mod_eq_of_lt hlsM]
  · have hL1 : 1 ≤ largeOf Sv f := by
      rw [largeOf_eq hS1 hf]
      exact Nat.le_add_left _ _
    have hLf : largeOf Sv f * f ≤ Sv + f - 1 := Nat.div_mul_le_self _ _
    have hLM : largeOf Sv f < M64 := by
      have : largeOf Sv f ≤ largeOf Sv f * f := by
        calc largeOf Sv f = largeOf Sv f * 1 := (Nat.mul_one _).symm
          _ ≤ largeOf Sv f * f := Nat.mul_le_mul_left _ hf
      omega
    have hsm : (largeOf Sv f % M64 + (M64 - 1)) % M64 = largeOf Sv f - 1 := by
      rw [Nat.mod_eq_of_lt hLM,
        show largeOf Sv f + (M64 - 1) = (largeOf Sv f - 1) + M64 by omega,
        Nat.add_mod_right, Nat.mod_eq_of_lt (by omega)]
    rw [hsm]
    obtain ⟨hr1, hrf, hsum⟩ := numLarger_bounds hS1 hf
    have hsmall : (largeOf Sv f - 1) * f ≤ Sv - 1 := by omega
    have hsmf : (largeOf Sv f - 1) * f % M64 = (largeOf Sv f - 1) * f :=
      Nat.mod_eq_of_lt (by omega)
    rw [hsmf]
    have hrr : (Sv % M64 + (M64 - (largeOf Sv f - 1) * f)) % M64 = numLarger Sv f := by
      rw [Nat.mod_eq_of_lt (show Sv < M64 by omega),
        show Sv + (M64 - (largeOf Sv f - 1) * f) =
          (Sv - (largeOf Sv f - 1) * f) + M64 by omega,
        Nat.add_mod_right, Nat.mod_eq_of_lt (show Sv - (largeOf Sv f - 1) * f < M64 by omega)]
      rfl
    rw [hrr]
    unfold childStart
    have hb1 : ∀ m, m ≤ f → m * largeOf Sv f ≤ Sv + f - 1 := by
      intro m hm
      calc m * largeOf Sv f ≤ f * largeOf Sv f := Nat.mul_le_mul_right _ hm
        _ = largeOf Sv f * f := Nat.mul_comm _ _
        _ ≤ Sv + f - 1 := hLf
    by_cases hif : i < numLarger Sv f
    · rw [if_pos hif, if_pos hif]
      have hprod := hb1 i hi
      have hval : ls + i * largeOf Sv f ≤ le := by
        have h := childStart_mono ls Sv f hi
        rw [childStart_top hf] at h
        unfold childStart at h
        rw [if_pos hif] at h
        omega
      rw [Nat.mod_eq_of_lt (show i * largeOf Sv f < M64 by omega),
        Nat.mod_eq_of_lt (show ls + i * largeOf Sv f < M64 by omega)]
    · rw [if_neg hif, if_neg hif]
      have hval : ls + numLarger Sv f * largeOf Sv f +
          (i - numLarger Sv f) * (largeOf Sv f - 1) ≤ le := by
        have h := childStart_mono ls Sv f hi
        rw [childStart_top hf] at h
        unfold childStart at h
        rw [if_neg hif] at h
        omega
      have hp1 := hb1 (numLarger Sv f) hrf
      have hp2 : (i - numLarger Sv f) * (largeOf Sv f - 1) ≤
          ls + numLarger Sv f * largeOf Sv f +
            (i - numLarger Sv f) * (largeOf Sv f - 1) := by omega
      rw [Nat.mod_eq_of_lt (show numLarger Sv f * largeOf Sv f < M64 by omega),
        Nat.mod_eq_of_lt (show ls + numLarger Sv f * largeOf Sv f < M64 by omega),
        Nat.mod_eq_of_lt (show (i - numLarger Sv f) * (largeOf Sv f - 1) < M64 by omega),
        Nat.mod_eq_of_lt (show ls + numLarger Sv f * largeOf Sv f +
          (i - numLarger Sv f) * (largeOf Sv f - 1) < M64 by omega)]

/-! ## Further helper lemmas for the claim theorems -/

lemma splitLevel_entry_zero {off : List ℕ} {f N : ℕ} (hf : 1 ≤ f)
    (hlen : 2 ≤ off.length) (h0 : off[0]! = 0) :
    (splitLevel off f N)[0]! = 0 := by
  have h := @splitLevel_getElem_bi off f N 0 0 (by omega) (by omega) (by omega)
  rw [show (0 : ℕ) * f + 0 = 0 by omega] at h
  rw [h, childStart_zero, h0]

lemma splitLevel_parent_end {off : List ℕ} {f N b : ℕ} (hf : 2 ≤ f)
    (h : levelOK N off) (hb : b + 1 < off.length) :
    (splitLevel off f N)[(b + 1) * f]! = off[b + 1]! := by
  obtain ⟨hlen, h0, hN, hmono, hmax⟩ := h
  rcases Nat.lt_or_ge (b + 1) (off.length - 1) with h2 | h2
  · rw [show (b + 1) * f = (b + 1) * f + 0 by omega,
      @splitLevel_getElem_bi off f N (b + 1) 0 (by omega) h2 (by omega), childStart_zero]
  · have hbeq : b + 1 = off.length - 1 := by omega
    rw [hbeq, splitLevel_lastEntry]
    exact hN.symm

lemma buildLoop_stuck :
    ∀ fuel (ls : List (List ℕ)), ls ≠ [] → 2 ≤ ls.getLast!.length →
      ls.getLast![0]! = 0 → ls.getLast![1]! = 1 →
      buildLoop 1 0 2 fuel ls = none := by
  intro fuel
  induction fuel with
  | zero =>
      intro ls _ _ _ h1
      unfold buildLoop
      rw [if_pos (by omega)]
  | succ fuel ih =>
      intro ls hne hlen h0 h1
      unfold buildLoop
      rw [if_pos (by omega)]
      apply ih
      · simp
      · rw [getLastBang_concat, splitLevel_length]
        have := Nat.mul_le_mul (show 1 ≤ ls.getLast!.length - 1 by omega)
          (show 1 ≤ 2 by omega)
        omega
      · rw [getLastBang_concat]
        exact splitLevel_entry_zero (by omega) hlen h0
      · rw [getLastBang_concat, splitLevel_entry_one (by omega) hlen h0, h1]
        decide

lemma headBang_eq_getBang {α : Type} [Inhabited α] (l : List α) (h : l ≠ []) :
    l.head! = l[0]! := by
  cases l with
  | nil => exact absurd rfl h
  | cons a t => rw [headBang_eq, getBang_cons_zero]

lemma getLastBang_eq_getBang {α : Type} [Inhabited α] (l : List α) (h : l ≠ []) :
    l.getLast! = l[l.length - 1]! := by
  rw [getLastBang_eq l h, List.getLast_eq_getElem,
    getElem!_pos l (l.length - 1) (by
      have := List.length_pos.mpr h
      omega)]

/-- The S4 translation, shared by the counterexample and the amended claim:
on filters `[1,2,3,3,4]` and query range `[3,3]` the code computes
`start = 2` and `end = 3` (one single increment past the first hit). -/
lemma rangeTranslate_S4 : rangeTranslate [1, 2, 3, 3, 4] 3 3 = (2, 3) := by
  have hfil : ([1, 2, 3, 3, 4] : List ℚ).Sorted (· ≤ ·) := by decide
  have h3 : first_ge 3 [1, 2, 3, 3, 4] = 2 := by
    rw [first_ge_eq _ _ hfil (by decide)]
    decide
  simp only [rangeTranslate]
  rw [h3]
  decide

lemma usize_toNat {c : ℤ} (h0 : 0 ≤ c) (h1 : c < 2 ^ 64) : usize c = c.toNat := by
  unfold usize
  rw [Int.emod_eq_of_lt h0 h1]

/-! ## Claim theorems -/

/-- C1: refuted by the code — `optimized_postfilter_search_in_range` never
descends below level 0.  On the S2 corpus (`N = 8`, filters `1..8`,
`cutoff = 2`, `split_factor = 2`) the constructor builds exactly the claimed
layout `[0,8] / [0,4,8] / [0,2,4,6,8]`, but for the translated index range
`[2, 4)` the level/bucket selection returns `(level, s_bucket, e_bucket) =
(0, 0, 1)`: the single level-0 root bucket `[0, 8)`, not the level-2 bucket
`[2, 4)`.  The root bucket always covers the whole range, so the
`end_bucket - start_bucket == 1` break of line 193 fires on the very first
iteration of the loop of line 175. -/
theorem C1_selection_stops_at_root :
    buildOffsets 8 2 2 8 = some [[0, 8], [0, 4, 8], [0, 2, 4, 6, 8]] ∧
    selectSpan [[0, 8], [0, 4, 8], [0, 2, 4, 6, 8]] 2 4 = (0, 0, 1) ∧
    (0, 0, 1) ≠ (2, 0, 1) :=
  ⟨by decide, by decide, by decide⟩

/-- C2: refuted by the code — `optimized_postfiltering_search` can return
points whose filter value lies outside `[lo, hi]`.  On the S2 corpus with
one-dimensional points `pts i = i`, query point `10`, filter range `[2, 5]`
and `k = 2`, the translated sorted-id range is `[1, 5)`, the identity-sorted
decoding holds, and the search — with the exact-search collaborator
`bruteBeam`, which honours the §4.2 contract — returns original ids `7` and
`6`, whose filter values `8` and `7` are not in `[2, 5]`: no candidate is
ever discarded for falling outside `[start, end)` (lines 198-218 contain no
such filter), and the bucket span searched is the level-0 root. -/
theorem C2_missing_postfilter :
    optSearch [1, 2, 3, 4, 5, 6, 7, 8] [[0, 8], [0, 4, 8], [0, 2, 4, 6, 8]]
        [0, 1, 2, 3, 4, 5, 6, 7]
        (bruteBeam (fun i => (i : ℤ)) [[0, 8], [0, 4, 8], [0, 2, 4, 6, 8]] 10 16)
        2 5 2 = [(7, 9), (6, 16)] ∧
    rangeTranslate [1, 2, 3, 4, 5, 6, 7, 8] 2 5 = (1, 5) ∧
    decoding 8 (fun i => ([1, 2, 3, 4, 5, 6, 7, 8] : List ℚ)[i]!) =
      [0, 1, 2, 3, 4, 5, 6, 7] ∧
    ([1, 2, 3, 4, 5, 6, 7, 8] : List ℚ)[7]! = 8 ∧ ¬ ((2 : ℚ) ≤ 8 ∧ (8 : ℚ) ≤ 5) := by
  have hfil : ([1, 2, 3, 4, 5, 6, 7, 8] : List ℚ).Sorted (· ≤ ·) := by decide
  have h2 : first_ge 2 [1, 2, 3, 4, 5, 6, 7, 8] = 1 := by
    rw [first_ge_eq _ _ hfil (by decide)]
    decide
  have h5 : first_ge 5 [1, 2, 3, 4, 5, 6, 7, 8] = 4 := by
    rw [first_ge_eq _ _ hfil (by decide)]
    decide
  have htr : rangeTranslate [1, 2, 3, 4, 5, 6, 7, 8] 2 5 = (1, 5) := by
    simp only [rangeTranslate]
    rw [h2, h5]
    decide
  refine ⟨?_, htr, by decide, by decide, by decide⟩
  unfold optSearch
  rw [show check_empty [1, 2, 3, 4, 5, 6, 7, 8] 2 5 = false from by decide, htr]
  decide

/-- C3: refuted by the code — the inclusion rule of lines 119-121 is a single
`if`, not a loop, so on filters `[1,2,3,3,4]` and query range `[3,3]` the
translation yields `end = 3`, not `end = 4` as the claim (following spec
scenario S4) states: `first_ge(3) = 2`, `filter[2] == 3` increments `end`
once to `3`, and the duplicate `3` at sorted-id `3` is **not** included. -/
theorem C3_counterexample_single_increment :
    rangeTranslate [1, 2, 3, 3, 4] 3 3 ≠ (2, 4) := by
  rw [rangeTranslate_S4]
  decide

/-- C3 (amended): for the filter array `[1,2,3,3,4]` and query range `[3,3]`,
the interval-to-index translation of `optimized_postfiltering_search` yields
`start = 2` and `end = 3` — the inclusion rule extends `end` one place past
the first point whose filter equals `hi`, so the translated index range
covers sorted-id `{2}` only. -/
theorem C3_amended_translation :
    rangeTranslate [1, 2, 3, 3, 4] 3 3 = (2, 3) :=
  rangeTranslate_S4

/-- C4 (counterexample): with `N = 3`, `cutoff = 1`, `split_factor = 2` the
constructor terminates with deepest level `[0, 1, 2, 3, 3]`, whose last two
offsets are equal — a zero-sized bucket `[3, 3)`.  This refutes the claim's
"no zero-sized buckets" (splitting a bucket of size `1` into `2` children
necessarily creates an empty child). -/
theorem C4_counterexample_zero_bucket :
    buildOffsets 3 1 2 3 = some [[0, 3], [0, 2, 3], [0, 1, 2, 3, 3]] ∧
    ([0, 1, 2, 3, 3] : List ℕ)[3]! = [0, 1, 2, 3, 3][4]! :=
  ⟨by decide, by decide⟩

/-- C4 (amended): whenever the construction loop terminates (`buildOffsets =
some L`), every level starts at `0`, ends at `N`, and is non-decreasing
(zero-sized buckets allowed); and every parent bucket of a non-deepest level
is split into exactly `split_factor` contiguous children covering exactly the
parent's range, with child sizes differing by at most one. -/
theorem C4_amended_layout_invariants {N : ℕ} {cutoff : ℤ} {f fuel : ℕ}
    {L : List (List ℕ)} (hN : 0 < N) (hf : 2 ≤ f)
    (hL : buildOffsets N cutoff f fuel = some L) :
    (∀ lvl ∈ L, lvl[0]! = 0 ∧ lvl[lvl.length - 1]! = N ∧
      ∀ b, b + 1 < lvl.length → lvl[b]! ≤ lvl[b + 1]!) ∧
    (∀ i, i + 1 < L.length →
      (L[i + 1]!).length = ((L[i]!).length - 1) * f + 1 ∧
      ∀ b, b + 1 < (L[i]!).length →
        (L[i + 1]!)[b * f]! = (L[i]!)[b]! ∧
        (L[i + 1]!)[(b + 1) * f]! = (L[i]!)[b + 1]! ∧
        ∀ j1 j2, j1 < f → j2 < f →
          (L[i + 1]!)[b * f + j1 + 1]! - (L[i + 1]!)[b * f + j1]! ≤
            ((L[i + 1]!)[b * f + j2 + 1]! - (L[i + 1]!)[b * f + j2]!) + 1) := by
  obtain ⟨hne, hall, hchain, hlast⟩ := buildOffsets_inv hf hL
  constructor
  · intro lvl hlvl
    obtain ⟨hlen, h0, hNl, hmono, hmax⟩ := hall lvl hlvl
    exact ⟨h0, hNl, hmono⟩
  · intro i hi
    have hmem : L[i]! ∈ L := by
      rw [getElem!_pos L i (by omega)]
      exact List.getElem_mem _
    have hOK := hall _ hmem
    have hrel : L[i + 1]! = splitLevel (L[i]!) f N := chain'_getElemBang hchain hi
    refine ⟨by rw [hrel, splitLevel_length], ?_⟩
    intro b hb
    have hb2 : b < (L[i]!).length - 1 := by omega
    refine ⟨?_, ?_, ?_⟩
    · rw [hrel, show b * f = b * f + 0 by omega,
        @splitLevel_getElem_bi (L[i]!) f N b 0 (by omega) hb2 (by omega),
        childStart_zero]
    · rw [hrel]
      exact splitLevel_parent_end hf hOK hb
    · intro j1 j2 hj1 hj2
      have hs1 := @splitLevel_succ_bi (L[i]!) f N b j1 hf hOK hb2 hj1
      have hs2 := @splitLevel_succ_bi (L[i]!) f N b j2 hf hOK hb2 hj2
      rw [hrel, hs1, hs2]
      have hc1 := childSize_le ((L[i]!)[b + 1]! - (L[i]!)[b]!) f j1
      have hc2 := childSize_ge ((L[i]!)[b + 1]! - (L[i]!)[b]!) f j2
      omega

/-- C4 (witness): the amended layout invariants at the concrete instance
`N = 1`, `cutoff = 1`, `split_factor = 2`, where the loop stops immediately
with the single level `[0, 1]`. -/
theorem C4_layout_witness :
    0 < 1 ∧ 2 ≤ 2 ∧ buildOffsets 1 1 2 1 = some [[0, 1]] ∧
    ((∀ lvl ∈ ([[0, 1]] : List (List ℕ)), lvl[0]! = 0 ∧ lvl[lvl.length - 1]! = 1 ∧
      ∀ b, b + 1 < lvl.length → lvl[b]! ≤ lvl[b + 1]!) ∧
    (∀ i, i + 1 < ([[0, 1]] : List (List ℕ)).length →
      (([[0, 1]] : List (List ℕ))[i + 1]!).length =
        ((([[0, 1]] : List (List ℕ))[i]!).length - 1) * 2 + 1 ∧
      ∀ b, b + 1 < (([[0, 1]] : List (List ℕ))[i]!).length →
        (([[0, 1]] : List (List ℕ))[i + 1]!)[b * 2]! =
          (([[0, 1]] : List (List ℕ))[i]!)[b]! ∧
        (([[0, 1]] : List (List ℕ))[i + 1]!)[(b + 1) * 2]! =
          (([[0, 1]] : List (List ℕ))[i]!)[b + 1]! ∧
        ∀ j1 j2, j1 < 2 → j2 < 2 →
          (([[0, 1]] : List (List ℕ))[i + 1]!)[b * 2 + j1 + 1]! -
              (([[0, 1]] : List (List ℕ))[i + 1]!)[b * 2 + j1]! ≤
            ((([[0, 1]] : List (List ℕ))[i + 1]!)[b * 2 + j2 + 1]! -
              (([[0, 1]] : List (List ℕ))[i + 1]!)[b * 2 + j2]!) + 1)) :=
  ⟨by decide, by decide, by decide,
    @C4_amended_layout_invariants 1 1 2 1 [[0, 1]] (by decide) (by decide) (by decide)⟩

/-- C5 (counterexample): with `cutoff = 0` (and `N = 1`, `split_factor = 2`)
the constructor's while-loop never terminates: the first bucket of every
level keeps size `1 > 0`, so the loop condition of line 74 never turns
false.  This refutes the "for every cutoff value" part of the claim. -/
theorem C5_counterexample_cutoff_zero : ¬ loopTerminates 1 0 2 := by
  rintro ⟨fuel, L, hL⟩
  unfold buildOffsets at hL
  rw [show usize 0 = 0 from by decide,
    buildLoop_stuck fuel [[0, 1]] (by simp) (by decide) (by decide) (by decide)] at hL
  exact absurd hL (by simp)

/-- C5 (amended): for `1 ≤ cutoff` (as a signed 32-bit value), `N ≥ 1` and
`split_factor ≥ 2`, the splitting loop terminates (fuel `N` suffices), every
bucket of the deepest level has size at most `cutoff`, and when `N ≤ cutoff`
the layout is exactly one level with the single bucket `[0, N)`. -/
theorem C5_amended_termination {N : ℕ} {cutoff : ℤ} {f : ℕ}
    (hc1 : 1 ≤ cutoff) (hc2 : cutoff < 2 ^ 31) (hN : 1 ≤ N) (hf : 2 ≤ f) :
    ∃ L, buildOffsets N cutoff f N = some L ∧
      (∀ b, b + 1 < L.getLast!.length →
        ((L.getLast![b + 1]! - L.getLast![b]! : ℕ) : ℤ) ≤ cutoff) ∧
      ((N : ℤ) ≤ cutoff → L = [[0, N]]) := by
  have hu : usize cutoff = cutoff.toNat :=
    usize_toNat (by omega) (lt_trans hc2 (by norm_num))
  have hcU : 1 ≤ usize cutoff := by
    rw [hu]
    omega
  obtain ⟨L, hL⟩ := buildLoop_terminates N (usize cutoff) f hcU hf N [[0, N]]
    (by simp)
    (by rw [show ([[0, N]] : List (List ℕ)).getLast! = [0, N] from rfl]; simp)
    (by rw [show ([[0, N]] : List (List ℕ)).getLast! = [0, N] from rfl, pairGet0])
    (by rw [show ([[0, N]] : List (List ℕ)).getLast! = [0, N] from rfl, pairGet1]; omega)
  refine ⟨L, hL, ?_, ?_⟩
  · obtain ⟨hne, hall, hchain, hlast⟩ := buildOffsets_inv hf hL
    have hmem : L.getLast! ∈ L := by
      rw [getLastBang_eq L hne]
      exact List.getLast_mem hne
    obtain ⟨hlen, h0, hNl, hmono, hmax⟩ := hall _ hmem
    intro b hb
    have h1 := hmax b hb
    rw [h0] at h1
    rw [hu] at hlast
    omega
  · intro hNc
    have hNcU : N ≤ usize cutoff := by
      rw [hu]
      omega
    obtain ⟨m, rfl⟩ : ∃ m, N = m + 1 := ⟨N - 1, by omega⟩
    unfold buildLoop at hL
    rw [if_neg (by
      rw [show ([[0, m + 1]] : List (List ℕ)).getLast! = [0, m + 1] from rfl, pairGet1]
      omega)] at hL
    injection hL with h
    exact h.symm

/-- C5 (witness): the amended termination claim at the concrete S2 instance
`N = 8`, `cutoff = 2`, `split_factor = 2`. -/
theorem C5_termination_witness :
    (1 : ℤ) ≤ 2 ∧ (2 : ℤ) < 2 ^ 31 ∧ 1 ≤ 8 ∧ 2 ≤ 2 ∧
    ∃ L, buildOffsets 8 2 2 8 = some L ∧
      (∀ b, b + 1 < L.getLast!.length →
        ((L.getLast![b + 1]! - L.getLast![b]! : ℕ) : ℤ) ≤ 2) ∧
      ((8 : ℤ) ≤ 2 → L = [[0, 8]]) :=
  ⟨by decide, by decide, by decide, by decide,
    C5_amended_termination (by decide) (by decide) (by decide) (by decide)⟩

/-- C6: confirmed — after construction the stored filter array is
non-decreasing, the decoding array is a bijection onto `[0, n)` (a
permutation of `range n`, injective and surjective below `n`), and the flat
sorted buffer holds at sorted-id `i` exactly the input vector at original
index `decoding[i]` (coordinate by coordinate).  The external
`parlay::sort_inplace` is modelled per §4.4 step 1 as a stable comparison
sort by the filter comparator. -/
theorem C6_constructor_sort_invariants (n d : ℕ) (data fil : ℕ → ℚ) :
    (∀ i, i + 1 < n → (sortedFilters n fil)[i]! ≤ (sortedFilters n fil)[i + 1]!) ∧
    (decoding n fil).Perm (List.range n) ∧
    (∀ i j, i < n → j < n → (decoding n fil)[i]! = (decoding n fil)[j]! → i = j) ∧
    (∀ v, v < n → ∃ i, i < n ∧ (decoding n fil)[i]! = v) ∧
    (∀ i dim, i < n → dim < d →
      (dataSorted n d data fil)[i * d + dim]! =
        data ((decoding n fil)[i]! * d + dim)) :=
  ⟨sortedFilters_mono n fil, sortIndices_perm n fil, decoding_inj n fil,
    decoding_surj n fil, fun i dim hi hdim => dataSorted_getElem n d data fil hi hdim⟩

/-- C7: confirmed — for a built index with `N ≥ 1`, every query whose range
misses the corpus entirely (`hi < filter[0]` or `lo > filter[N-1]`) returns
the empty sequence (the `check_empty` early return of line 112), and every
query with `k = 0` returns the empty sequence (`min(0, merged.size())`
candidates are taken on line 210); neither is an error. -/
theorem C7_empty_range_and_k0 (fil : List ℚ) (offs : List (List ℕ)) (dec : List ℕ)
    (beam : ℕ → ℕ → List (ℕ × ℚ)) (lo hi : ℚ) (k : ℕ) (hN : 1 ≤ fil.length) :
    ((hi < fil[0]! ∨ lo > fil[fil.length - 1]!) →
      optSearch fil offs dec beam lo hi k = []) ∧
    optSearch fil offs dec beam lo hi 0 = [] := by
  have hne : fil ≠ [] := by
    intro h
    rw [h] at hN
    simp at hN
  constructor
  · intro h
    have hce : check_empty fil lo hi = true := by
      unfold check_empty
      rw [headBang_eq_getBang fil hne, getLastBang_eq_getBang fil hne]
      rcases h with h | h
      · simp [h]
      · simp [h]
    unfold optSearch
    rw [hce]
    rfl
  · unfold optSearch
    by_cases hce : check_empty fil lo hi
    · rw [hce]
      rfl
    · simp only [Bool.not_eq_true] at hce
      rw [hce]
      simp only [Bool.false_eq_true, if_false]
      exact searchInRange_k0 _ _ _ _ _

/-- C7 (witness): the empty-range and `k = 0` early returns at the concrete
instance filters `[1, 2]`, query range `[5, 6]` (entirely above the corpus),
`k = 3`. -/
theorem C7_early_return_witness :
    1 ≤ ([1, 2] : List ℚ).length ∧
    (((6 : ℚ) < ([1, 2] : List ℚ)[0]! ∨ (5 : ℚ) > ([1, 2] : List ℚ)[([1, 2] : List ℚ).length - 1]!) →
      optSearch [1, 2] [[0, 2]] [0, 1] (fun _ _ => []) 5 6 3 = []) ∧
    optSearch [1, 2] [[0, 2]] [0, 1] (fun _ _ => []) 5 6 0 = [] :=
  ⟨by decide, (C7_empty_range_and_k0 [1, 2] [[0, 2]] [0, 1] (fun _ _ => []) 5 6 3
      (by decide)).1,
    (C7_empty_range_and_k0 [1, 2] [[0, 2]] [0, 1] (fun _ _ => []) 5 6 0 (by decide)).2⟩

/-- C8: confirmed — on every non-decreasing, nonempty filter array,
`first_greater_than_or_equal_to` (a total function here: the binary-search
loop is well-founded on `end - start`) returns exactly the naive lower
bound: the least index whose value is `≥ v`, or the length when none is
(`List.findIdx` of the predicate `v ≤ ·`). -/
theorem C8_first_ge_is_lower_bound (fil : List ℚ) (v : ℚ)
    (hsort : fil.Sorted (· ≤ ·)) (hne : fil ≠ []) :
    first_ge v fil = fil.findIdx (fun x => decide (v ≤ x)) :=
  first_ge_eq fil v hsort hne

/-- C8 (witness): the lower-bound equivalence at the concrete sorted array
`[1, 2, 3, 3, 4]` and probe value `3`. -/
theorem C8_lower_bound_witness :
    ([1, 2, 3, 3, 4] : List ℚ).Sorted (· ≤ ·) ∧ ([1, 2, 3, 3, 4] : List ℚ) ≠ [] ∧
    first_ge 3 [1, 2, 3, 3, 4] =
      ([1, 2, 3, 3, 4] : List ℚ).findIdx (fun x => decide ((3 : ℚ) ≤ x)) :=
  ⟨by decide, by decide, C8_first_ge_is_lower_bound [1, 2, 3, 3, 4] 3
    (by decide) (by decide)⟩

/-- C9: confirmed — `read_two_floats_per_line` splits every line at its
first dash, parses both parts with `stof`, and returns the `(min, max)`
pairs in line order; the first malformed line (no dash, or a part `stof`
rejects) aborts the read with a fatal error naming that line's 1-based
number (`lineErr`).  `stof` abstracts the C++ `std::stof` function, which
may reject its input. -/
theorem C9_read_two_floats_per_line {α : Type} (stof : List Char → Option α)
    (lines : List (List Char)) :
    ((∀ line ∈ lines, (lineParse stof line).isSome) →
      read_two_floats_per_line stof lines =
        Except.ok (lines.filterMap (lineParse stof))) ∧
    (∀ j, j < lines.length → (∀ m, m < j → (lineParse stof lines[m]!).isSome) →
      (lineParse stof lines[j]!).isNone →
      read_two_floats_per_line stof lines =
        Except.error (lineErr (j + 1) lines[j]!)) := by
  constructor
  · exact fun h => readTwoLoop_ok stof lines 0 h
  · intro j hj hpre hbad
    have h := readTwoLoop_err stof lines 0 j hj hpre hbad
    rw [show 0 + j + 1 = j + 1 by omega] at h
    exact h

/-- C9 (witness): the reader at a concrete two-line file whose second line
fails to parse — a toy `stof` accepting only the digit `1` — and at a
concrete well-formed file. -/
theorem C9_reader_witness :
    ((∀ line ∈ [['1', '-', '1']],
        (lineParse (fun l => if l = ['1'] then some (1 : ℚ) else none) line).isSome) ∧
      read_two_floats_per_line (fun l => if l = ['1'] then some (1 : ℚ) else none)
        [['1', '-', '1']] =
        Except.ok ([['1', '-', '1']].filterMap
          (lineParse (fun l => if l = ['1'] then some (1 : ℚ) else none)))) ∧
    (1 < ([['1', '-', '1'], ['2', '-', '2']] : List (List Char)).length ∧
      read_two_floats_per_line (fun l => if l = ['1'] then some (1 : ℚ) else none)
        [['1', '-', '1'], ['2', '-', '2']] =
        Except.error (lineErr 2 ([['1', '-', '1'], ['2', '-', '2']] :
          List (List Char))[1]!)) :=
  ⟨⟨by decide,
    (C9_read_two_floats_per_line (fun l => if l = ['1'] then some (1 : ℚ) else none)
      [['1', '-', '1']]).1 (by decide)⟩,
   ⟨by decide,
    (C9_read_two_floats_per_line (fun l => if l = ['1'] then some (1 : ℚ) else none)
      [['1', '-', '1'], ['2', '-', '2']]).2 1 (by decide)
      (by intro m hm; interval_cases m <;> decide) (by decide)⟩⟩

/-- C10: confirmed — the query path presupposes a nonempty corpus.  With the
unguarded accesses (`front()`/`back()` in `check_empty`, `filter_values[0]`
in the binary search) made explicit, every access is in bounds whenever
`N ≥ 1` (the instrumented pipeline returns `some` of the plain one), while
for `N = 0` the very first access of `check_empty` is out of bounds (`none`)
— and no code path on the query side checks `N == 0` first. -/
theorem C10_nonempty_presupposition (fil : List ℚ) (offs : List (List ℕ))
    (dec : List ℕ) (beam : ℕ → ℕ → List (ℕ × ℚ)) (lo hi : ℚ) (k : ℕ) :
    (fil ≠ [] → optSearch_opt fil offs dec beam lo hi k =
      some (optSearch fil offs dec beam lo hi k)) ∧
    optSearch_opt [] offs dec beam lo hi k = none :=
  ⟨fun h => optSearch_opt_some fil offs dec beam lo hi k h,
   optSearch_opt_nil offs dec beam lo hi k⟩

/-- C10 (witness): the instrumented pipeline at the concrete nonempty corpus
`[1, 2]` (in bounds, `some`) and at the empty corpus (`none`). -/
theorem C10_bounds_witness :
    ([1, 2] : List ℚ) ≠ [] ∧
    optSearch_opt [1, 2] [[0, 2]] [0, 1] (fun _ _ => []) 1 2 1 =
      some (optSearch [1, 2] [[0, 2]] [0, 1] (fun _ _ => []) 1 2 1) ∧
    optSearch_opt [] [[0, 2]] [0, 1] (fun _ _ => []) 1 2 1 = none :=
  ⟨by decide,
   (C10_nonempty_presupposition [1, 2] [[0, 2]] [0, 1] (fun _ _ => []) 1 2 1).1
     (by decide),
   (C10_nonempty_presupposition [1, 2] [[0, 2]] [0, 1] (fun _ _ => []) 1 2 1).2⟩
